import Mathlib

/-!
Verification of the textual-lexing layer `src/text.rs` of the chumsky
parser-combinator library. The character trait and the lexical parsers
(`whitespace`, `newline`, `digits`, `int`, `ident`, `keyword`, `padded`)
are translated from the source; the generic combinator engine and the
input-stream abstraction they are built on are not part of the source
slice and are modelled from the specification's interface contracts.
-/

namespace Chumsky

/-- Result of a computation that may hit a Rust panic; used to model
`char::to_digit`, which asserts that the radix is at most 36. -/
inductive PanicOr (α : Type) where
  | panic
  | val (a : α)
deriving DecidableEq

/-- Collapse a possibly-panicking boolean to a plain boolean, reading a panic
as `false`; used only to state lemmas under a no-panic hypothesis. -/
def PanicOr.orFalse : PanicOr Bool → Bool
  | .panic => false
  | .val b => b

/-- Short-circuiting conjunction of a possibly-panicking boolean with a plain
boolean, mirroring Rust's `a && b` where `a` is evaluated first. -/
def PanicOr.band : PanicOr Bool → Bool → PanicOr Bool
  | .panic, _ => .panic
  | .val a, b => .val (a && b)

/-- Modelled from the spec: the outcome of running a parser on the remaining
input. `ok val rest` commits the consumed prefix, `err rest` reports failure
with the stream left at `rest` (so consumption on failure is observable), and
`panic` propagates a Rust panic raised by a character predicate. -/
inductive PResult (C O : Type) where
  | ok (val : O) (rest : List C)
  | err (rest : List C)
  | panic
deriving DecidableEq

/-- Modelled from the spec: a parser is a function from the input stream
(the list of remaining characters) to a parse outcome. -/
def Parser (C O : Type) : Type := List C → PResult C O

/-- The `Character` trait of `src/text.rs`: textual character types (`u8` and
`char`), exposing a whitespace test, the zero digit, a radix-parameterised
digit test and a view of the character as a codepoint. The associated output
collection is modelled as `List C` throughout. -/
structure Character (C : Type) where
  is_whitespace : C → Bool
  digit_zero : C
  is_digit : C → Nat → PanicOr Bool
  to_char : C → Char

/-- Model of Rust `char::to_digit` without its radix assertion: the digit
value of the character, if any (`0`-`9`, then `a`-`z` and `A`-`Z` counting
from 10). -/
def toDigitCore (c : Char) : Option Nat :=
  if 48 ≤ c.toNat ∧ c.toNat ≤ 57 then some (c.toNat - 48)
  else if 97 ≤ c.toNat ∧ c.toNat ≤ 122 then some (c.toNat - 97 + 10)
  else if 65 ≤ c.toNat ∧ c.toNat ≤ 90 then some (c.toNat - 65 + 10)
  else none

/-- Model of Rust `char::is_digit`: panics when the radix exceeds 36 (the
assertion inside `to_digit`), otherwise tests whether the digit value of the
character is below the radix. -/
def charIsDigit (c : Char) (radix : Nat) : PanicOr Bool :=
  if 36 < radix then .panic
  else .val ((toDigitCore c).elim false (fun d => decide (d < radix)))

/-- Model of Rust `char::is_whitespace`: membership in the Unicode
`White_Space` set. -/
def charIsWhitespace (c : Char) : Bool :=
  (9 ≤ c.toNat && c.toNat ≤ 13) || c.toNat == 32 || c.toNat == 133 ||
    c.toNat == 160 || c.toNat == 5760 || (8192 ≤ c.toNat && c.toNat ≤ 8202) ||
    c.toNat == 8232 || c.toNat == 8233 || c.toNat == 8239 || c.toNat == 8287 ||
    c.toNat == 12288

/-- The `impl Character for char` of `src/text.rs`. -/
def charCharacter : Character Char where
  is_whitespace := charIsWhitespace
  digit_zero := Char.ofNat 48
  is_digit := charIsDigit
  to_char := fun c => c

/-- Model of Rust `u8::is_ascii_whitespace`: space, tab, newline, form feed
and carriage return. -/
def byteIsWhitespace (b : Nat) : Bool :=
  b == 32 || b == 9 || b == 10 || b == 12 || b == 13

/-- The `impl Character for u8` of `src/text.rs`; bytes are modelled as `Nat`
values below 256, and `to_char` is the Rust `u8 as char` cast. The digit test
delegates to the `char` digit test on the cast character, as in the source. -/
def byteCharacter : Character Nat where
  is_whitespace := byteIsWhitespace
  digit_zero := 48
  is_digit := fun b radix => charIsDigit (Char.ofNat b) radix
  to_char := Char.ofNat

/-- Modelled from the spec: filtering — accept the next input unit only if a
predicate holds; fails without consumption, and propagates a panic raised by
the predicate. -/
def filterP {C : Type} (p : C → PanicOr Bool) : Parser C C := fun input =>
  match input with
  | [] => .err []
  | c :: rest =>
    match p c with
    | .panic => .panic
    | .val true => .ok c rest
    | .val false => .err (c :: rest)

/-- Modelled from the spec: literal matching — succeed iff the next input unit
equals the given value; fails without consumption. -/
def justP {C : Type} [DecidableEq C] (c : C) : Parser C C := fun input =>
  match input with
  | [] => .err []
  | x :: rest => if x = c then .ok x rest else .err (x :: rest)

/-- Modelled from the spec: mapping — transform a successful result. -/
def mapP {C O O2 : Type} (f : O → O2) (p : Parser C O) : Parser C O2 := fun input =>
  match p input with
  | .ok o rest => .ok (f o) rest
  | .err rest => .err rest
  | .panic => .panic

/-- Modelled from the spec: fallible mapping (`try_map`) — optionally turn a
successful result into a failure reported at the position the inner parser
reached, leaving whatever the inner parser consumed consumed. -/
def tryMapP {C O O2 : Type} (f : O → Option O2) (p : Parser C O) : Parser C O2 := fun input =>
  match p input with
  | .ok o rest =>
    match f o with
    | some o2 => .ok o2 rest
    | none => .err rest
  | .err rest => .err rest
  | .panic => .panic

/-- Modelled from the spec: ordered alternation — checkpoint, try the first
alternative, and on its failure revert to the checkpoint and try the second
(the revert is what lets the bare-carriage-return alternative of the newline
parser run after the CRLF alternative has consumed the carriage return). -/
def orP {C O : Type} (a b : Parser C O) : Parser C O := fun input =>
  match a input with
  | .ok o rest => .ok o rest
  | .err _ => b input
  | .panic => .panic

/-- Modelled from the spec: `or_not` — try the parser, and on failure revert
and succeed with no value. -/
def orNotP {C O : Type} (p : Parser C O) : Parser C (Option O) := fun input =>
  match p input with
  | .ok o rest => .ok (some o) rest
  | .err _ => .ok none input
  | .panic => .panic

/-- Modelled from the spec: sequencing keeping the second result
(`ignore_then`). A failure of the second parser is reported from the position
it reached; the first parser's consumption is not undone. -/
def ignoreThenP {C O1 O2 : Type} (a : Parser C O1) (b : Parser C O2) : Parser C O2 := fun input =>
  match a input with
  | .ok _ rest => b rest
  | .err rest => .err rest
  | .panic => .panic

/-- Modelled from the spec: sequencing keeping the first result
(`then_ignore`). -/
def thenIgnoreP {C O1 O2 : Type} (a : Parser C O1) (b : Parser C O2) : Parser C O1 := fun input =>
  match a input with
  | .ok o rest =>
    match b rest with
    | .ok _ rest2 => .ok o rest2
    | .err rest2 => .err rest2
    | .panic => .panic
  | .err rest => .err rest
  | .panic => .panic

/-- Modelled from the spec: the zero-or-more repetition loop, with explicit
fuel bounding the number of iterations. Each failed attempt is reverted, so
the repetition itself never fails; collected results are returned in order. -/
def repeatedF {C O : Type} (p : Parser C O) : Nat → List C → PResult C (List O)
  | 0, input => .ok [] input
  | fuel + 1, input =>
    match p input with
    | .panic => .panic
    | .err _ => .ok [] input
    | .ok o rest =>
      match repeatedF p fuel rest with
      | .ok os rest2 => .ok (o :: os) rest2
      | .err rest2 => .err rest2
      | .panic => .panic

/-- Modelled from the spec: zero-or-more repetition (`repeated`). The fuel
`input.length + 1` never runs out for the parsers of this file, whose items
always consume a character on success. -/
def repeatedP {C O : Type} (p : Parser C O) : Parser C (List O) := fun input =>
  repeatedF p (input.length + 1) input

/-- Modelled from the spec: the `at_least(1)` constraint on a repetition —
fail, consuming nothing, when the repetition matched zero items. -/
def atLeastOneP {C O : Type} (p : Parser C (List O)) : Parser C (List O) := fun input =>
  match p input with
  | .ok [] _ => .err input
  | .ok os rest => .ok os rest
  | .err rest => .err rest
  | .panic => .panic

/-- Modelled from the spec: chaining — concatenate an optional head match with
the list matched after it (`filter.map(Some).chain(...)` in the source). -/
def chainP {C O : Type} (a : Parser C (Option O)) (b : Parser C (List O)) :
    Parser C (List O) := fun input =>
  match a input with
  | .ok o rest =>
    match b rest with
    | .ok os rest2 => .ok (o.toList ++ os) rest2
    | .err rest2 => .err rest2
    | .panic => .panic
  | .err rest => .err rest
  | .panic => .panic

/-- The loop body of `whitespace` in `src/text.rs`: repeatedly save, read one
character, and on end of input or a non-whitespace character revert and stop.
Returns the stream contents left after the loop. -/
def whitespaceRun {C : Type} (M : Character C) : List C → List C
  | [] => []
  | c :: rest =>
    if M.is_whitespace c then whitespaceRun M rest else c :: rest

/-- `whitespace` of `src/text.rs`: a custom parser that accepts and ignores
any number of whitespace characters and never fails. -/
def whitespace {C : Type} (M : Character C) : Parser C Unit := fun input =>
  .ok () (whitespaceRun M input)

/-- Iteration-counting version of the `whitespace` loop: each unit of fuel
pays for one iteration (one save/next round of the source loop), and `none`
means the loop was still running when the fuel ran out. -/
def whitespaceSteps {C : Type} (M : Character C) : Nat → List C → Option (List C)
  | 0, _ => none
  | fuel + 1, input =>
    match input with
    | [] => some []
    | c :: rest =>
      if M.is_whitespace c then whitespaceSteps M fuel rest else some (c :: rest)

/-- `TextParser::padded` of `src/text.rs`:
`whitespace().ignore_then(self).then_ignore(whitespace())`. -/
def padded {C O : Type} (M : Character C) (p : Parser C O) : Parser C O :=
  thenIgnoreP (ignoreThenP (whitespace M) p) (whitespace M)

/-- `newline` of `src/text.rs`: an optional carriage return followed by a line
feed, or vertical tab, form feed, carriage return, next line, line separator
or paragraph separator, tried in that order, with the result ignored. -/
def newline : Parser Char Unit :=
  mapP (fun _ => ())
    (orP (orP (orP (orP (orP (orP
      (ignoreThenP (orNotP (justP (Char.ofNat 13))) (justP (Char.ofNat 10)))
      (justP (Char.ofNat 11)))
      (justP (Char.ofNat 12)))
      (justP (Char.ofNat 13)))
      (justP (Char.ofNat 133)))
      (justP (Char.ofNat 8232)))
      (justP (Char.ofNat 8233)))

/-- `digits` of `src/text.rs`:
`filter(|c| c.is_digit(radix)).repeated().at_least(1).collect()`. -/
def digits {C : Type} (M : Character C) (radix : Nat) : Parser C (List C) :=
  atLeastOneP (repeatedP (filterP (fun c => M.is_digit c radix)))

/-- `int` of `src/text.rs`: a digit that is not the zero digit chained with
any number of further digits, or else exactly the single zero digit. -/
def int {C : Type} [DecidableEq C] (M : Character C) (radix : Nat) : Parser C (List C) :=
  orP
    (chainP
      (mapP some
        (filterP (fun c => (M.is_digit c radix).band (!decide (c = M.digit_zero)))))
      (repeatedP (filterP (fun c => M.is_digit c radix))))
    (mapP (fun c => [c]) (justP M.digit_zero))

/-- Model of Rust `char::is_ascii_alphabetic`. -/
def asciiAlphabetic (c : Char) : Bool :=
  (65 ≤ c.toNat && c.toNat ≤ 90) || (97 ≤ c.toNat && c.toNat ≤ 122)

/-- Model of Rust `char::is_ascii_alphanumeric`. -/
def asciiAlphanumeric (c : Char) : Bool :=
  asciiAlphabetic c || (48 ≤ c.toNat && c.toNat ≤ 57)

/-- The predicate of the first `filter` of `ident` in `src/text.rs`:
`c.to_char().is_ascii_alphabetic() || c.to_char() == '_'`. -/
def identStart {C : Type} (M : Character C) (c : C) : Bool :=
  asciiAlphabetic (M.to_char c) || M.to_char c == Char.ofNat 95

/-- The predicate of the repeated `filter` of `ident` in `src/text.rs`:
`c.to_char().is_ascii_alphanumeric() || c.to_char() == '_'`. -/
def identCont {C : Type} (M : Character C) (c : C) : Bool :=
  asciiAlphanumeric (M.to_char c) || M.to_char c == Char.ofNat 95

/-- `ident` of `src/text.rs`: an ASCII alphabetic character or underscore
chained with any number of ASCII alphanumeric characters or underscores. -/
def ident {C : Type} (M : Character C) : Parser C (List C) :=
  chainP
    (mapP some (filterP (fun c => .val (identStart M c))))
    (repeatedP (filterP (fun c => .val (identCont M c))))

/-- `keyword` of `src/text.rs`: parse a full identifier, then succeed only if
it equals the requested keyword, failing (with the identifier already
consumed) otherwise. -/
def keyword {C : Type} [DecidableEq C] (M : Character C) (kw : List C) : Parser C Unit :=
  tryMapP (fun s => if s = kw then some () else none) (ident M)

/-! ### List helper lemmas -/

lemma takeWhile_mem_true {C : Type} (p : C → Bool) (l : List C) :
    ∀ c ∈ l.takeWhile p, p c = true := by
  induction l with
  | nil => simp
  | cons a t ih =>
    intro c hc
    rw [List.takeWhile_cons] at hc
    by_cases ha : p a = true
    · rw [if_pos ha] at hc
      rcases List.mem_cons.mp hc with rfl | hc'
      · exact ha
      · exact ih c hc'
    · rw [if_neg ha] at hc
      exact absurd hc (List.not_mem_nil c)

lemma dropWhile_head_false {C : Type} (p : C → Bool) (l : List C) :
    ∀ c, (l.dropWhile p).head? = some c → p c = false := by
  induction l with
  | nil => simp [List.dropWhile]
  | cons a t ih =>
    intro c hc
    rw [List.dropWhile_cons] at hc
    by_cases ha : p a = true
    · rw [if_pos ha] at hc
      exact ih c hc
    · rw [if_neg ha] at hc
      simp only [List.head?_cons, Option.some.injEq] at hc
      subst hc
      exact Bool.not_eq_true _ ▸ (by simpa using ha)

lemma takeWhile_all {C : Type} (p : C → Bool) (l : List C) (h : ∀ c ∈ l, p c = true) :
    l.takeWhile p = l := by
  induction l with
  | nil => rfl
  | cons a t ih =>
    rw [List.takeWhile_cons, if_pos (h a (List.mem_cons_self a t))]
    exact congrArg _ (ih fun c hc => h c (List.mem_cons_of_mem a hc))

lemma dropWhile_all {C : Type} (p : C → Bool) (l : List C) (h : ∀ c ∈ l, p c = true) :
    l.dropWhile p = [] := by
  induction l with
  | nil => rfl
  | cons a t ih =>
    rw [List.dropWhile_cons, if_pos (h a (List.mem_cons_self a t))]
    exact ih fun c hc => h c (List.mem_cons_of_mem a hc)

lemma dropWhile_head_not {C : Type} (p : C → Bool) (l : List C)
    (h : ∀ c, l.head? = some c → p c = false) : l.dropWhile p = l := by
  cases l with
  | nil => rfl
  | cons a t =>
    rw [List.dropWhile_cons, if_neg]
    simp [h a rfl]

/-! ### Lemmas about the whitespace loop -/

lemma whitespaceRun_eq_dropWhile {C : Type} (M : Character C) (s : List C) :
    whitespaceRun M s = s.dropWhile M.is_whitespace := by
  induction s with
  | nil => rfl
  | cons c t ih =>
    rw [whitespaceRun, List.dropWhile_cons]
    by_cases hc : M.is_whitespace c = true
    · rw [if_pos hc, if_pos hc, ih]
    · rw [if_neg hc, if_neg hc]

lemma whitespaceRun_append {C : Type} (M : Character C) (w t : List C)
    (h : ∀ c ∈ w, M.is_whitespace c = true) :
    whitespaceRun M (w ++ t) = whitespaceRun M t := by
  induction w with
  | nil => rfl
  | cons a w' ih =>
    rw [List.cons_append, whitespaceRun, if_pos (h a (List.mem_cons_self a w'))]
    exact ih fun c hc => h c (List.mem_cons_of_mem a hc)

lemma whitespaceRun_all {C : Type} (M : Character C) (w : List C)
    (h : ∀ c ∈ w, M.is_whitespace c = true) : whitespaceRun M w = [] := by
  have h2 := whitespaceRun_append M w [] h
  simpa using h2

lemma whitespaceRun_head_not {C : Type} (M : Character C) (t : List C)
    (h : ∀ c, t.head? = some c → M.is_whitespace c = false) : whitespaceRun M t = t := by
  rw [whitespaceRun_eq_dropWhile]
  exact dropWhile_head_not _ _ h

/-! ### Lemmas about the repetition loop -/

lemma repeatedF_ne_err {C O : Type} (p : Parser C O) :
    ∀ (fuel : Nat) (s r : List C), repeatedF p fuel s ≠ .err r := by
  intro fuel
  induction fuel with
  | zero =>
    intro s r h
    exact PResult.noConfusion h
  | succ n ih =>
    intro s r h
    simp only [repeatedF] at h
    cases hp : p s with
    | panic => simp [hp] at h
    | err rest => simp [hp] at h
    | ok o rest =>
      simp only [hp] at h
      cases hr : repeatedF p n rest with
      | ok os rest2 => simp [hr] at h
      | err rest2 => exact ih rest rest2 hr
      | panic => simp [hr] at h

lemma repeatedF_filter {C : Type} (p : C → PanicOr Bool) :
    ∀ (s : List C) (fuel : Nat), s.length < fuel → (∀ c ∈ s, p c ≠ .panic) →
      repeatedF (filterP p) fuel s =
        .ok (s.takeWhile fun c => (p c).orFalse) (s.dropWhile fun c => (p c).orFalse) := by
  intro s
  induction s with
  | nil =>
    intro fuel hf _
    cases fuel with
    | zero => omega
    | succ n => simp [repeatedF, filterP]
  | cons c t ih =>
    intro fuel hf hnp
    cases fuel with
    | zero => omega
    | succ n =>
      simp only [repeatedF]
      cases hp : p c with
      | panic => exact absurd hp (hnp c (List.mem_cons_self c t))
      | val b =>
        have hlen : t.length < n := by
          simp only [List.length_cons] at hf
          omega
        have ht := ih n hlen (fun x hx => hnp x (List.mem_cons_of_mem c hx))
        cases b with
        | true =>
          have hfil : filterP p (c :: t) = .ok c t := by
            simp [filterP, hp]
          simp only [hfil]
          rw [ht]
          simp [List.takeWhile_cons, List.dropWhile_cons, hp, PanicOr.orFalse]
        | false =>
          have hfil : filterP p (c :: t) = .err (c :: t) := by
            simp [filterP, hp]
          simp only [hfil]
          simp [List.takeWhile_cons, List.dropWhile_cons, hp, PanicOr.orFalse]

lemma repeatedP_filter {C : Type} (p : C → PanicOr Bool) (s : List C)
    (hnp : ∀ c ∈ s, p c ≠ .panic) :
    repeatedP (filterP p) s =
      .ok (s.takeWhile fun c => (p c).orFalse) (s.dropWhile fun c => (p c).orFalse) :=
  repeatedF_filter p s (s.length + 1) (Nat.lt_succ_self _) hnp

lemma repeatedP_ne_err {C O : Type} (p : Parser C O) (s r : List C) :
    repeatedP p s ≠ .err r :=
  repeatedF_ne_err p (s.length + 1) s r

/-! ### Failure-consumption lemmas for the primitive combinators -/

lemma justP_err {C : Type} [DecidableEq C] (c : C) (s r : List C)
    (h : justP c s = .err r) : r = s := by
  cases s with
  | nil =>
    injection h with h1
    exact h1.symm
  | cons x xs =>
    by_cases hx : x = c
    · simp [justP, hx] at h
    · simp only [justP, if_neg hx] at h
      injection h with h1
      exact h1.symm

lemma orP_err {C O : Type} (a b : Parser C O) (s r : List C)
    (h : orP a b s = .err r) : b s = .err r := by
  simp only [orP] at h
  cases ha : a s with
  | ok o r2 => simp [ha] at h
  | panic => simp [ha] at h
  | err r2 =>
    simp only [ha] at h
    exact h

/-! ### Lemmas about `digits` -/

lemma digits_err {C : Type} (M : Character C) (radix : Nat) (s rest : List C)
    (h : digits M radix s = .err rest) : rest = s := by
  simp only [digits, atLeastOneP] at h
  cases hr : repeatedP (filterP fun c => M.is_digit c radix) s with
  | ok os rest2 =>
    cases os with
    | nil =>
      simp only [hr] at h
      injection h with h1
      exact h1.symm
    | cons o os' => simp [hr] at h
  | err rest2 => exact absurd hr (repeatedP_ne_err _ _ _)
  | panic => simp [hr] at h

lemma digits_ok_ne_nil {C : Type} (M : Character C) (radix : Nat) (s os rest : List C)
    (h : digits M radix s = .ok os rest) : os ≠ [] := by
  intro hnil
  subst hnil
  simp only [digits, atLeastOneP] at h
  cases hr : repeatedP (filterP fun c => M.is_digit c radix) s with
  | ok os' rest2 =>
    cases os' with
    | nil => simp [hr] at h
    | cons o t => simp [hr] at h
  | err rest2 => simp [hr] at h
  | panic => simp [hr] at h

lemma digits_cons {C : Type} (M : Character C) (radix : Nat) (c : C) (t : List C)
    (hc : M.is_digit c radix = .val true)
    (hnp : ∀ x ∈ t, M.is_digit x radix ≠ .panic) :
    digits M radix (c :: t) =
      .ok (c :: t.takeWhile fun x => (M.is_digit x radix).orFalse)
        (t.dropWhile fun x => (M.is_digit x radix).orFalse) := by
  have hnp' : ∀ x ∈ c :: t, M.is_digit x radix ≠ .panic := by
    intro x hx
    rcases List.mem_cons.mp hx with rfl | hx'
    · simp [hc]
    · exact hnp x hx'
  simp only [digits, atLeastOneP, repeatedP_filter _ _ hnp']
  rw [List.takeWhile_cons, List.dropWhile_cons]
  simp [hc, PanicOr.orFalse]

lemma digits_panic_head {C : Type} (M : Character C) (radix : Nat) (c : C) (t : List C)
    (hc : M.is_digit c radix = .panic) : digits M radix (c :: t) = .panic := by
  have hfil : filterP (fun x => M.is_digit x radix) (c :: t) = .panic := by
    simp [filterP, hc]
  simp [digits, atLeastOneP, repeatedP, repeatedF, hfil]

/-! ### Lemmas about `int` -/

lemma int_accepts {C : Type} [DecidableEq C] (M : Character C) (radix : Nat) (s : List C)
    (hne : s ≠ []) (hdig : ∀ c ∈ s, M.is_digit c radix = .val true)
    (hlz : s.head? = some M.digit_zero → s = [M.digit_zero]) :
    int M radix s = .ok s [] := by
  cases s with
  | nil => exact absurd rfl hne
  | cons c t =>
    by_cases hc : c = M.digit_zero
    · subst hc
      have ht : t = [] := by
        have h2 := hlz (by simp)
        injection h2
      subst ht
      have hd : M.is_digit M.digit_zero radix = .val true :=
        hdig _ (List.mem_cons_self _ _)
      simp [int, orP, chainP, mapP, filterP, justP, hd, PanicOr.band]
    · have hd : M.is_digit c radix = .val true := hdig c (List.mem_cons_self c t)
      have hfA : filterP
          (fun x => (M.is_digit x radix).band (!decide (x = M.digit_zero)))
          (c :: t) = .ok c t := by
        simp [filterP, hd, PanicOr.band, hc]
      have hnp : ∀ x ∈ t, M.is_digit x radix ≠ .panic := by
        intro x hx
        simp [hdig x (List.mem_cons_of_mem c hx)]
      have hrep : repeatedP (filterP fun x => M.is_digit x radix) t = .ok t [] := by
        rw [repeatedP_filter _ _ hnp]
        rw [takeWhile_all _ _ (fun x hx => by
          simp [hdig x (List.mem_cons_of_mem c hx), PanicOr.orFalse])]
        rw [dropWhile_all _ _ (fun x hx => by
          simp [hdig x (List.mem_cons_of_mem c hx), PanicOr.orFalse])]
      simp [int, orP, chainP, mapP, hfA, hrep]

lemma int_leading_zero {C : Type} [DecidableEq C] (M : Character C) (radix : Nat)
    (c : C) (t : List C)
    (hdig : ∀ x ∈ M.digit_zero :: c :: t, M.is_digit x radix = .val true) :
    int M radix (M.digit_zero :: c :: t) = .ok [M.digit_zero] (c :: t) := by
  have hd0 : M.is_digit M.digit_zero radix = .val true := hdig _ (List.mem_cons_self _ _)
  simp [int, orP, chainP, mapP, filterP, justP, hd0, PanicOr.band]

lemma int_err {C : Type} [DecidableEq C] (M : Character C) (radix : Nat) (s rest : List C)
    (h : int M radix s = .err rest) : rest = s := by
  simp only [int, orP] at h
  cases hA : chainP
      (mapP some (filterP fun x => (M.is_digit x radix).band (!decide (x = M.digit_zero))))
      (repeatedP (filterP fun x => M.is_digit x radix)) s with
  | ok o r2 => simp [hA] at h
  | panic => simp [hA] at h
  | err r2 =>
    simp only [hA] at h
    cases s with
    | nil =>
      simp only [mapP, justP] at h
      injection h with h1
      exact h1.symm
    | cons x xs =>
      by_cases hx : x = M.digit_zero
      · simp [mapP, justP, hx] at h
      · simp only [mapP, justP, if_neg hx] at h
        injection h with h1
        exact h1.symm

lemma int_panic_head {C : Type} [DecidableEq C] (M : Character C) (radix : Nat)
    (c : C) (t : List C) (hc : M.is_digit c radix = .panic) :
    int M radix (c :: t) = .panic := by
  simp [int, orP, chainP, mapP, filterP, hc, PanicOr.band]

/-! ### Lemmas about `ident` -/

lemma ident_accepts {C : Type} (M : Character C) (s : List C) (hne : s ≠ [])
    (hhead : ∀ c, s.head? = some c → identStart M c = true)
    (htail : ∀ c ∈ s.tail, identCont M c = true) :
    ident M s = .ok s [] := by
  cases s with
  | nil => exact absurd rfl hne
  | cons c t =>
    have hc : identStart M c = true := hhead c rfl
    have hfil : filterP (fun x => PanicOr.val (identStart M x)) (c :: t) = .ok c t := by
      simp [filterP, hc]
    have hrep : repeatedP (filterP fun x => PanicOr.val (identCont M x)) t = .ok t [] := by
      rw [repeatedP_filter _ _ (by intro x hx; simp)]
      rw [takeWhile_all _ _ (fun x hx => by simp [htail x hx, PanicOr.orFalse])]
      rw [dropWhile_all _ _ (fun x hx => by simp [htail x hx, PanicOr.orFalse])]
    simp [ident, chainP, mapP, hfil, hrep]

lemma ident_reject {C : Type} (M : Character C) (s : List C)
    (hhead : ∀ c, s.head? = some c → identStart M c = false) :
    ident M s = .err s := by
  cases s with
  | nil => simp [ident, chainP, mapP, filterP]
  | cons c t =>
    have hc := hhead c rfl
    simp [ident, chainP, mapP, filterP, hc]

lemma ident_err {C : Type} (M : Character C) (s rest : List C)
    (h : ident M s = .err rest) : rest = s := by
  simp only [ident, chainP] at h
  cases s with
  | nil =>
    simp only [mapP, filterP] at h
    injection h with h1
    exact h1.symm
  | cons c t =>
    by_cases hc : identStart M c = true
    · have hfil : mapP some (filterP fun x => PanicOr.val (identStart M x)) (c :: t) =
          .ok (some c) t := by
        simp [mapP, filterP, hc]
      simp only [hfil] at h
      cases hr : repeatedP (filterP fun x => PanicOr.val (identCont M x)) t with
      | ok os rest2 => simp [hr] at h
      | err rest2 => exact absurd hr (repeatedP_ne_err _ _ _)
      | panic => simp [hr] at h
    · have hcf : identStart M c = false := by
        simpa using hc
      have hfil : mapP some (filterP fun x => PanicOr.val (identStart M x)) (c :: t) =
          .err (c :: t) := by
        simp [mapP, filterP, hcf]
      simp only [hfil] at h
      injection h with h1
      exact h1.symm

lemma ident_ok_shape {C : Type} (M : Character C) (s os rest : List C)
    (h : ident M s = .ok os rest) :
    os ≠ [] ∧ (∀ c, os.head? = some c → identStart M c = true) ∧
      (∀ c ∈ os.tail, identCont M c = true) ∧ s = os ++ rest := by
  simp only [ident, chainP] at h
  cases s with
  | nil => simp [mapP, filterP] at h
  | cons c t =>
    by_cases hc : identStart M c = true
    · have hfil : mapP some (filterP fun x => PanicOr.val (identStart M x)) (c :: t) =
          .ok (some c) t := by
        simp [mapP, filterP, hc]
      have hrep := repeatedP_filter (fun x => PanicOr.val (identCont M x)) t
        (by intro x hx; simp)
      simp only [hfil, hrep] at h
      injection h with h1 h2
      have hos : os = c :: t.takeWhile fun x => identCont M x := by
        rw [← h1]
        simp [PanicOr.orFalse]
      have hrest : rest = t.dropWhile fun x => identCont M x := by
        rw [← h2]
        simp [PanicOr.orFalse]
      subst hos
      subst hrest
      refine ⟨by simp, ?_, ?_, ?_⟩
      · intro x hx
        simp only [List.head?_cons, Option.some.injEq] at hx
        subst hx
        exact hc
      · intro x hx
        simp only [List.tail_cons] at hx
        exact takeWhile_mem_true _ _ x hx
      · have h3 := List.takeWhile_append_dropWhile (fun x => identCont M x) t
        simp [h3]
    · have hcf : identStart M c = false := by
        simpa using hc
      simp [mapP, filterP, hcf] at h

/-! ### Lemmas about `newline` -/

lemma newline_crlf (rest : List Char) :
    newline (Char.ofNat 13 :: Char.ofNat 10 :: rest) = .ok () rest := rfl

lemma newline_lf (rest : List Char) :
    newline (Char.ofNat 10 :: rest) = .ok () rest := rfl

lemma newline_ls (rest : List Char) :
    newline (Char.ofNat 8232 :: rest) = .ok () rest := rfl

lemma newline_cr (rest : List Char)
    (h : ∀ c, rest.head? = some c → c ≠ Char.ofNat 10) :
    newline (Char.ofNat 13 :: rest) = .ok () rest := by
  cases rest with
  | nil => rfl
  | cons c t =>
    have hc : ¬ c = Char.ofNat 10 := h c rfl
    simp [newline, mapP, orP, orNotP, ignoreThenP, justP, hc]

lemma newline_single (c : Char) :
    newline [c] = .ok () [] ↔
      (c = Char.ofNat 10 ∨ c = Char.ofNat 11 ∨ c = Char.ofNat 12 ∨ c = Char.ofNat 13 ∨
        c = Char.ofNat 133 ∨ c = Char.ofNat 8232 ∨ c = Char.ofNat 8233) := by
  constructor
  · intro h
    by_contra hn
    push_neg at hn
    obtain ⟨h10, h11, h12, h13, h133, h8232, h8233⟩ := hn
    simp [newline, mapP, orP, orNotP, ignoreThenP, justP,
      h10, h11, h12, h13, h133, h8232, h8233] at h
  · rintro (rfl | rfl | rfl | rfl | rfl | rfl | rfl) <;> decide

lemma newline_err (s rest : List Char) (h : newline s = .err rest) : rest = s := by
  simp only [newline, mapP] at h
  cases hA : orP (orP (orP (orP (orP (orP
      (ignoreThenP (orNotP (justP (Char.ofNat 13))) (justP (Char.ofNat 10)))
      (justP (Char.ofNat 11)))
      (justP (Char.ofNat 12)))
      (justP (Char.ofNat 13)))
      (justP (Char.ofNat 133)))
      (justP (Char.ofNat 8232)))
      (justP (Char.ofNat 8233)) s with
  | ok o r2 => simp [hA] at h
  | panic => simp [hA] at h
  | err r2 =>
    simp only [hA] at h
    injection h with h1
    have hB := orP_err _ _ _ _ hA
    have hs := justP_err _ _ _ hB
    exact h1.symm.trans hs

/-! ### Lemmas about `padded` -/

lemma padded_ok {C O : Type} (M : Character C) (P : Parser C O) (ws1 s ws2 : List C)
    (o : O)
    (hws1 : ∀ c ∈ ws1, M.is_whitespace c = true)
    (hws2 : ∀ c ∈ ws2, M.is_whitespace c = true)
    (hstart : ∀ c, s.head? = some c → M.is_whitespace c = false)
    (hP0 : P s = .ok o [])
    (hPext : P (s ++ ws2) = .ok o ws2) :
    padded M P (ws1 ++ s ++ ws2) = .ok o [] := by
  simp only [padded, thenIgnoreP, ignoreThenP, whitespace]
  cases s with
  | nil =>
    have hall : ∀ c ∈ ws1 ++ ([] : List C) ++ ws2, M.is_whitespace c = true := by
      intro c hc
      simp only [List.append_nil] at hc
      rcases List.mem_append.mp hc with hc1 | hc2
      · exact hws1 c hc1
      · exact hws2 c hc2
    rw [whitespaceRun_all M _ hall]
    simp only [hP0]
    rfl
  | cons a s' =>
    have hrun : whitespaceRun M (ws1 ++ (a :: s') ++ ws2) = (a :: s') ++ ws2 := by
      rw [List.append_assoc, whitespaceRun_append M ws1 _ hws1]
      exact whitespaceRun_head_not M _ (by
        intro c hc
        simp only [List.cons_append, List.head?_cons, Option.some.injEq] at hc
        subst hc
        exact hstart a rfl)
    rw [hrun]
    simp only [hPext]
    rw [whitespaceRun_all M ws2 hws2]
/-! ### Claim theorems -/

/-- C1: for every radix, `int` accepts a non-empty digit string with no
leading zero digit (or exactly the single zero digit) and returns exactly that
string with nothing left over; on a digit string whose first digit is the zero
digit and whose length exceeds one it commits only to the zero digit, so it
never yields the full string as one token; and whenever `int` fails it
consumes nothing. -/
theorem int_spec {C : Type} [DecidableEq C] (M : Character C) (radix : Nat) :
    (∀ s : List C, s ≠ [] → (∀ c ∈ s, M.is_digit c radix = .val true) →
      (s.head? = some M.digit_zero → s = [M.digit_zero]) →
      int M radix s = .ok s []) ∧
    (∀ (c : C) (t : List C),
      (∀ x ∈ M.digit_zero :: c :: t, M.is_digit x radix = .val true) →
      int M radix (M.digit_zero :: c :: t) = .ok [M.digit_zero] (c :: t) ∧
      ∀ o : List C, int M radix (M.digit_zero :: c :: t) ≠ .ok o []) ∧
    (∀ s rest : List C, int M radix s = .err rest → rest = s) := by
  refine ⟨fun s hne hdig hlz => int_accepts M radix s hne hdig hlz,
    fun c t hdig => ⟨int_leading_zero M radix c t hdig, ?_⟩,
    fun s rest h => int_err M radix s rest h⟩
  intro o ho
  rw [int_leading_zero M radix c t hdig] at ho
  injection ho with h1 h2
  exact List.noConfusion h2

/-- Witness for C1: `int(10)` accepts `"17"` whole, and on `"007"` commits
only to the leading `"0"`, leaving `"07"`. -/
theorem int_spec_witness :
    int charCharacter 10 ['1', '7'] = .ok ['1', '7'] [] ∧
    int charCharacter 10 ['0', '0', '7'] = .ok ['0'] ['0', '7'] := by
  constructor
  · exact (int_spec charCharacter 10).1 ['1', '7'] (by decide) (by decide) (by decide)
  · exact ((int_spec charCharacter 10).2.1 '0' ['7'] (by decide)).1

/-- C2: `keyword "def"` succeeds on `"def"` consuming all three characters,
succeeds on `"def(foo, bar)"` consuming exactly `"def"`, and fails on
`"define"` with the whole six-character identifier consumed; by contrast the
other primitives of the file fail only without consumption (and the
whitespace parser never fails at all), making the keyword parser the sole
exception to the zero-consumption-on-failure policy. -/
theorem keyword_spec :
    keyword charCharacter ['d', 'e', 'f'] ['d', 'e', 'f'] = .ok () [] ∧
    keyword charCharacter ['d', 'e', 'f']
        ['d', 'e', 'f', '(', 'f', 'o', 'o', ',', ' ', 'b', 'a', 'r', ')'] =
      .ok () ['(', 'f', 'o', 'o', ',', ' ', 'b', 'a', 'r', ')'] ∧
    keyword charCharacter ['d', 'e', 'f'] ['d', 'e', 'f', 'i', 'n', 'e'] = .err [] ∧
    (∀ {C : Type} (M : Character C) (radix : Nat) (s rest : List C),
      digits M radix s = .err rest → rest = s) ∧
    (∀ {C : Type} [DecidableEq C] (M : Character C) (radix : Nat) (s rest : List C),
      int M radix s = .err rest → rest = s) ∧
    (∀ {C : Type} (M : Character C) (s rest : List C),
      ident M s = .err rest → rest = s) ∧
    (∀ s rest : List Char, newline s = .err rest → rest = s) ∧
    (∀ {C : Type} (M : Character C) (s rest : List C), whitespace M s ≠ .err rest) :=
  ⟨by decide, by decide, by decide,
    fun M radix s rest h => digits_err M radix s rest h,
    fun M radix s rest h => int_err M radix s rest h,
    fun M s rest h => ident_err M s rest h,
    fun s rest h => newline_err s rest h,
    fun M s rest h => PResult.noConfusion h⟩

/-- Witness for C2: the zero-consumption conjunct for `digits` applied to the
concrete failing parse of `"  "`. -/
theorem keyword_spec_witness : ([' ', ' '] : List Char) = [' ', ' '] :=
  keyword_spec.2.2.2.1 charCharacter 10 [' ', ' '] [' ', ' '] (by decide)

/-- C3: on every input the whitespace parser succeeds, consuming exactly the
maximal whitespace prefix: the dropped prefix is all whitespace, the remaining
suffix does not start with whitespace, and when the input is empty or starts
with a non-whitespace character nothing is consumed. -/
theorem whitespace_spec {C : Type} (M : Character C) (s : List C) :
    whitespace M s = .ok () (s.dropWhile M.is_whitespace) ∧
    s.takeWhile M.is_whitespace ++ s.dropWhile M.is_whitespace = s ∧
    (∀ c ∈ s.takeWhile M.is_whitespace, M.is_whitespace c = true) ∧
    (∀ c, (s.dropWhile M.is_whitespace).head? = some c → M.is_whitespace c = false) ∧
    ((∀ c, s.head? = some c → M.is_whitespace c = false) →
      whitespace M s = .ok () s) := by
  refine ⟨?_, List.takeWhile_append_dropWhile _ _, takeWhile_mem_true _ _,
    dropWhile_head_false _ _, ?_⟩
  · simp only [whitespace, whitespaceRun_eq_dropWhile]
  · intro h
    simp only [whitespace, whitespaceRun_head_not M s h]

/-- Witness for C3: an input starting with a non-whitespace character is left
untouched. -/
theorem whitespace_spec_witness :
    whitespace charCharacter ['a', ' '] = .ok () ['a', ' '] := by
  apply (whitespace_spec charCharacter ['a', ' ']).2.2.2.2
  intro c hc
  injection hc with h1
  subst h1
  decide

/-- C4 counterexample: the claim fails as stated. Take the inner pattern
`just ' '` (a single literal space), `ws1 = ws2 = []` and `s = " "`: the
pattern matches `s` standalone, but `padded` first consumes the space as
leading whitespace and then fails, instead of yielding the same result. -/
theorem padded_spec_counterexample :
    justP ' ' [' '] = .ok ' ' [] ∧
    padded charCharacter (justP ' ') ([] ++ [' '] ++ []) = .err [] := by decide

/-- C4 amended: for every inner pattern `P` and input `ws1 ++ s ++ ws2` with
`ws1`, `ws2` whitespace-only, if `s` does not start with a whitespace
character and `P` matches `s` exactly — both standalone and when the trailing
padding follows it — then `padded P` on the concatenation yields the same
result as `P` on `s` alone, consuming the whole input. -/
theorem padded_spec_amended {C O : Type} (M : Character C) (P : Parser C O)
    (ws1 s ws2 : List C) (o : O)
    (hws1 : ∀ c ∈ ws1, M.is_whitespace c = true)
    (hws2 : ∀ c ∈ ws2, M.is_whitespace c = true)
    (hstart : ∀ c, s.head? = some c → M.is_whitespace c = false)
    (hP0 : P s = .ok o [])
    (hPext : P (s ++ ws2) = .ok o ws2) :
    padded M P (ws1 ++ s ++ ws2) = .ok o [] :=
  padded_ok M P ws1 s ws2 o hws1 hws2 hstart hP0 hPext

/-- Witness for the amended C4: `just 'a'` padded, on `" a "`. -/
theorem padded_spec_amended_witness :
    padded charCharacter (justP 'a') ([' '] ++ ['a'] ++ [' ']) = .ok 'a' [] := by
  apply padded_spec_amended charCharacter (justP 'a') [' '] ['a'] [' '] 'a'
    (by decide) (by decide) ?_ (by decide) (by decide)
  intro c hc
  injection hc with h1
  subst h1
  decide

/-- C5: the newline parser consumes a full CRLF pair as one match, a bare line
feed, a bare carriage return not followed by a line feed, and a line
separator; and on a single character it succeeds exactly on the closed set
line feed, vertical tab, form feed, carriage return, next line, line
separator, paragraph separator. -/
theorem newline_spec :
    (∀ rest : List Char, newline (Char.ofNat 13 :: Char.ofNat 10 :: rest) = .ok () rest) ∧
    (∀ rest : List Char, newline (Char.ofNat 10 :: rest) = .ok () rest) ∧
    (∀ rest : List Char, (∀ c, rest.head? = some c → c ≠ Char.ofNat 10) →
      newline (Char.ofNat 13 :: rest) = .ok () rest) ∧
    (∀ rest : List Char, newline (Char.ofNat 8232 :: rest) = .ok () rest) ∧
    (∀ c : Char, newline [c] = .ok () [] ↔
      (c = Char.ofNat 10 ∨ c = Char.ofNat 11 ∨ c = Char.ofNat 12 ∨ c = Char.ofNat 13 ∨
        c = Char.ofNat 133 ∨ c = Char.ofNat 8232 ∨ c = Char.ofNat 8233)) :=
  ⟨newline_crlf, newline_lf, newline_cr, newline_ls, newline_single⟩

/-- Witness for C5: a bare carriage return followed by `'x'` consumes exactly
the carriage return. -/
theorem newline_spec_witness :
    newline [Char.ofNat 13, Char.ofNat 120] = .ok () [Char.ofNat 120] := by
  apply newline_spec.2.2.1 [Char.ofNat 120]
  intro c hc
  injection hc with h1
  subst h1
  decide

/-- C6: `digits` accepts one or more characters satisfying the digit
predicate, collecting them in order into a never-empty output (stopping at
the first non-digit), and when zero characters match it fails while consuming
nothing; concretely `digits(16)` on `"ff "` returns `"ff"` stopping before
the space, and `digits(10)` on `"  "` fails consuming nothing. -/
theorem digits_spec {C : Type} (M : Character C) (radix : Nat) :
    (∀ (c : C) (t : List C), M.is_digit c radix = .val true →
      (∀ x ∈ t, M.is_digit x radix ≠ .panic) →
      digits M radix (c :: t) =
        .ok (c :: t.takeWhile fun x => (M.is_digit x radix).orFalse)
          (t.dropWhile fun x => (M.is_digit x radix).orFalse)) ∧
    (∀ s os rest : List C, digits M radix s = .ok os rest → os ≠ []) ∧
    (∀ s rest : List C, digits M radix s = .err rest → rest = s) ∧
    digits charCharacter 16 ['f', 'f', ' '] = .ok ['f', 'f'] [' '] ∧
    digits charCharacter 10 [' ', ' '] = .err [' ', ' '] :=
  ⟨fun c t hc hnp => digits_cons M radix c t hc hnp,
    fun s os rest h => digits_ok_ne_nil M radix s os rest h,
    fun s rest h => digits_err M radix s rest h,
    by decide, by decide⟩

/-- Witness for C6: the general collection conjunct evaluated on `"ff "` at
radix 16. -/
theorem digits_spec_witness :
    digits charCharacter 16 ['f', 'f', ' '] = .ok ['f', 'f'] [' '] := by
  have h := (digits_spec charCharacter 16).1 'f' ['f', ' '] (by decide) (by decide)
  exact h.trans (by decide)

/-- C7: `ident` accepts exactly the strings matching
`[a-zA-Z_][a-zA-Z0-9_]*`: a whole input of that shape is returned in full
with nothing left, any successful output is a non-empty in-order prefix of
that shape, and when the first character does not match (a digit, or an empty
input) it fails without consuming. -/
theorem ident_spec {C : Type} (M : Character C) :
    (∀ s : List C, s ≠ [] → (∀ c, s.head? = some c → identStart M c = true) →
      (∀ c ∈ s.tail, identCont M c = true) → ident M s = .ok s []) ∧
    (∀ s : List C, (∀ c, s.head? = some c → identStart M c = false) →
      ident M s = .err s) ∧
    (∀ s os rest : List C, ident M s = .ok os rest →
      os ≠ [] ∧ (∀ c, os.head? = some c → identStart M c = true) ∧
        (∀ c ∈ os.tail, identCont M c = true) ∧ s = os ++ rest) :=
  ⟨fun s h1 h2 h3 => ident_accepts M s h1 h2 h3,
    fun s h => ident_reject M s h,
    fun s os rest h => ident_ok_shape M s os rest h⟩

/-- Witness for C7: the identifier `"_a1"` is accepted in full. -/
theorem ident_spec_witness :
    ident charCharacter ['_', 'a', '1'] = .ok ['_', 'a', '1'] [] := by
  apply (ident_spec charCharacter).1 ['_', 'a', '1'] (by decide) ?_ (by decide)
  intro c hc
  injection hc with h1
  subst h1
  decide

/-- C8: the whitespace loop terminates on every finite input, reaching its
break within `length + 1` iterations (each iteration either consumes one
character or reverts to its checkpoint and exits), and the parser built on it
always succeeds with the loop's result. -/
theorem whitespace_termination {C : Type} (M : Character C) (s : List C) :
    whitespaceSteps M (s.length + 1) s = some (whitespaceRun M s) ∧
    whitespace M s = .ok () (whitespaceRun M s) := by
  refine ⟨?_, rfl⟩
  induction s with
  | nil => rfl
  | cons c t ih =>
    simp only [List.length_cons, whitespaceSteps, whitespaceRun]
    by_cases hc : M.is_whitespace c = true
    · rw [if_pos hc, if_pos hc]
      exact ih
    · rw [if_neg hc, if_neg hc]

/-- C9: the whitespace predicate is representation-dependent: the byte
variant is true exactly on the five ASCII whitespace bytes, while the
codepoint variant accepts Unicode whitespace such as the no-break space —
so the byte whitespace parser leaves a no-break space unconsumed where the
codepoint parser skips it. -/
theorem whitespace_representation_divergence :
    (∀ b : Nat, byteCharacter.is_whitespace b = true ↔
      (b = 32 ∨ b = 9 ∨ b = 10 ∨ b = 12 ∨ b = 13)) ∧
    charCharacter.is_whitespace (Char.ofNat 160) = true ∧
    byteCharacter.is_whitespace 160 = false ∧
    whitespace charCharacter [Char.ofNat 160] = .ok () [] ∧
    whitespace byteCharacter [160] = .ok () [160] := by
  refine ⟨?_, by decide, by decide, by decide, by decide⟩
  intro b
  simp [byteCharacter, byteIsWhitespace, Bool.or_eq_true, beq_iff_eq, or_assoc]

/-- Witness for C9: the tab byte is byte-whitespace. -/
theorem whitespace_representation_divergence_witness :
    byteCharacter.is_whitespace 9 = true :=
  (whitespace_representation_divergence.1 9).mpr (Or.inr (Or.inl rfl))

/-- C10: the digit predicate is total for every radix up to 36 and panics for
every radix above 36, for both character representations (the byte test
delegates to the codepoint test on the cast character); consequently `digits`
and `int` with such a radix panic as soon as they test a character. -/
theorem is_digit_radix_panic :
    (∀ (c : Char) (radix : Nat), radix ≤ 36 → charCharacter.is_digit c radix ≠ .panic) ∧
    (∀ (c : Char) (radix : Nat), 36 < radix → charCharacter.is_digit c radix = .panic) ∧
    (∀ b radix : Nat,
      byteCharacter.is_digit b radix = charCharacter.is_digit (Char.ofNat b) radix) ∧
    (∀ {C : Type} (M : Character C) (radix : Nat) (c : C) (t : List C),
      M.is_digit c radix = .panic → digits M radix (c :: t) = .panic) ∧
    (∀ {C : Type} [DecidableEq C] (M : Character C) (radix : Nat) (c : C) (t : List C),
      M.is_digit c radix = .panic → int M radix (c :: t) = .panic) := by
  refine ⟨?_, ?_, fun b radix => rfl,
    fun M radix c t hc => digits_panic_head M radix c t hc,
    fun M radix c t hc => int_panic_head M radix c t hc⟩
  · intro c radix hr h
    simp only [charCharacter, charIsDigit] at h
    rw [if_neg (by omega)] at h
    exact PanicOr.noConfusion h
  · intro c radix hr
    simp only [charCharacter, charIsDigit]
    rw [if_pos hr]

/-- Witness for C10: at radix 37 the digit test panics and `digits` panics on
a non-empty input. -/
theorem is_digit_radix_panic_witness :
    charCharacter.is_digit '0' 37 = .panic ∧ digits charCharacter 37 ['0'] = .panic := by
  constructor
  · exact is_digit_radix_panic.2.1 '0' 37 (by decide)
  · exact is_digit_radix_panic.2.2.2.1 charCharacter 37 '0' [] (by decide)

end Chumsky
